import Mathlib

/-!
Verification of the `EarlyAllocator` bump allocator
(`modules/bump_allocator/src/lib.rs`).

The allocator manages one contiguous region `[start, end)`: bytes are
allocated forward from `start` (cursor `byte_pos`), pages backward from
`end` (cursor `page_pos`); `byte_count` counts outstanding byte
allocations and the whole byte arena is reclaimed when it returns to zero.

Modelling conventions (shallow embedding of the Rust source):
* `usize` values are natural numbers; `W = 2 ^ 64` is one past the
  largest `usize`.
* Plain (non-atomic) `usize` arithmetic that overflows is a Rust program
  error (it traps in checked builds); such a call is modelled by a
  distinct `overflowPanic` outcome and is neither a success nor an `Err`
  return.
* Atomic `fetch_add` / `fetch_sub` wrap by definition in Rust, so the
  `byte_count` updates are taken modulo `W`.
* `NonNull::new(p).unwrap()` on `p = 0` panics; this is the separate
  `nullPanic` outcome, which carries the state because in the source the
  cursor/counter stores happen before the `unwrap`.
* The query methods take `&self` and perform only atomic loads, so they
  are modelled as pure functions of the state; mutation-freedom is by
  construction.
-/

namespace EarlyAlloc

/-- One past the largest `usize` value (64-bit platform). -/
def W : Nat := 2 ^ 64

/-- Bitwise NOT on a 64-bit `usize`: `!x = (2^64 - 1) - x` for `x < W`. -/
def usize_not (x : Nat) : Nat := W - 1 - x

/-- Rust `usize::checked_sub`. -/
def checked_sub (a b : Nat) : Option Nat :=
  if b ≤ a then some (a - b) else none

/-- State of `EarlyAllocator<PAGE_SIZE>`: `start`/`end` bounds of the
region, the two cursors, and the live byte-allocation count. -/
structure EarlyAllocator where
  start : Nat
  «end» : Nat
  byte_pos : Nat
  page_pos : Nat
  byte_count : Nat
deriving DecidableEq

/-- Errors of the `allocator` crate used by this allocator. -/
inductive AllocError where
  | NoMemory
  | InvalidParam
deriving DecidableEq

/-- Constructor `EarlyAllocator::new()`. -/
def new : EarlyAllocator := ⟨0, 0, 0, 0, 0⟩

/-- Helper `EarlyAllocator::align_up(addr, align) = (addr + align - 1) & !(align - 1)`.
`none` models the trap: `align - 1` underflows when `align = 0`, and
`addr + align` can overflow `usize`. -/
def align_up (addr align : Nat) : Option Nat :=
  if align = 0 then none
  else if addr + align < W then
    some ((addr + align - 1) &&& usize_not (align - 1))
  else none

/-- Operation `BaseAllocator::init(start, size)`: binds the region.  `none` models
the trap of `start + size` overflowing `usize`. -/
def init (_s : EarlyAllocator) (start size : Nat) : Option EarlyAllocator :=
  if start + size < W then
    some { start := start, «end» := start + size, byte_pos := start,
           page_pos := start + size, byte_count := 0 }
  else none

/-- Operation `BaseAllocator::add_memory`: always `Err(AllocError::InvalidParam)`,
no field is touched. -/
def add_memory (s : EarlyAllocator) (_start _size : Nat) :
    Except AllocError Unit × EarlyAllocator :=
  (Except.error AllocError.InvalidParam, s)

/-- Outcome of `ByteAllocator::alloc`. -/
inductive ByteAllocResult where
  | ok (addr : Nat) (s' : EarlyAllocator)
  | err (e : AllocError) (s' : EarlyAllocator)
  | overflowPanic
  | nullPanic (s' : EarlyAllocator)
deriving DecidableEq

/-- Operation `ByteAllocator::alloc(layout)` with `size = layout.size()`,
`align = layout.align()`: round `byte_pos` up to `align`, refuse with
`NoMemory` if the new cursor would pass `page_pos`, otherwise advance the
cursor, bump the count (atomics wrap), and return the aligned address
through `NonNull::new(..).unwrap()` (which panics on address 0, after
the stores). -/
def alloc (s : EarlyAllocator) (size align : Nat) : ByteAllocResult :=
  match align_up s.byte_pos align with
  | none => .overflowPanic
  | some aligned_pos =>
    if aligned_pos + size < W then
      let new_pos := aligned_pos + size
      if new_pos > s.page_pos then .err .NoMemory s
      else
        let s' : EarlyAllocator :=
          { s with byte_pos := new_pos, byte_count := (s.byte_count + 1) % W }
        if aligned_pos = 0 then .nullPanic s' else .ok aligned_pos s'
    else .overflowPanic

/-- Operation `ByteAllocator::dealloc(_pos, _layout)`: the pointer and layout
arguments are ignored by the source; `fetch_sub` returns the previous
count (wrapping), and if that previous count was 1 the byte cursor is
reset to `start`. -/
def dealloc (s : EarlyAllocator) : EarlyAllocator :=
  let count := s.byte_count
  let s1 : EarlyAllocator := { s with byte_count := (s.byte_count + W - 1) % W }
  if count = 1 then { s1 with byte_pos := s1.start } else s1

/-- Query `ByteAllocator::total_bytes = end - start` (reachable states have
`start ≤ end`, so `Nat` subtraction agrees with `usize` subtraction). -/
def total_bytes (s : EarlyAllocator) : Nat := s.«end» - s.start

/-- Query `ByteAllocator::used_bytes = byte_pos - start`. -/
def used_bytes (s : EarlyAllocator) : Nat := s.byte_pos - s.start

/-- Query `ByteAllocator::available_bytes`: `page_pos - byte_pos` if positive else 0. -/
def available_bytes (s : EarlyAllocator) : Nat :=
  if s.page_pos > s.byte_pos then s.page_pos - s.byte_pos else 0

/-- Outcome of `PageAllocator::alloc_pages`. -/
inductive PageAllocResult where
  | ok (addr : Nat) (s' : EarlyAllocator)
  | err (e : AllocError) (s' : EarlyAllocator)
  | overflowPanic
deriving DecidableEq

/-- Operation `PageAllocator::alloc_pages(num_pages, align_pow2)`: take
`size = num_pages * PAGE_SIZE` off the top (`checked_sub` gives
`NoMemory` on underflow), align the candidate downward by masking, fail
with `NoMemory` if it falls at or below `byte_pos`, else commit.
`overflowPanic` models the traps of `num_pages * PAGE_SIZE` overflowing
and of `align_pow2 - 1` underflowing. -/
def alloc_pages (PAGE_SIZE : Nat) (s : EarlyAllocator)
    (num_pages align_pow2 : Nat) : PageAllocResult :=
  if num_pages * PAGE_SIZE < W then
    if align_pow2 = 0 then .overflowPanic
    else
      let size := num_pages * PAGE_SIZE
      let align_mask := align_pow2 - 1
      match checked_sub s.page_pos size with
      | none => .err .NoMemory s
      | some new_pos =>
        let aligned_pos := new_pos &&& usize_not align_mask
        if aligned_pos ≤ s.byte_pos then .err .NoMemory s
        else .ok aligned_pos { s with page_pos := aligned_pos }
  else .overflowPanic

/-- Operation `PageAllocator::dealloc_pages(_pos, _num_pages)`: empty body. -/
def dealloc_pages (s : EarlyAllocator) (_pos _num_pages : Nat) :
    EarlyAllocator := s

/-- Query `PageAllocator::total_pages = (end - start) / PAGE_SIZE`. -/
def total_pages (PAGE_SIZE : Nat) (s : EarlyAllocator) : Nat :=
  (s.«end» - s.start) / PAGE_SIZE

/-- Query `PageAllocator::used_pages = (end - page_pos) / PAGE_SIZE`. -/
def used_pages (PAGE_SIZE : Nat) (s : EarlyAllocator) : Nat :=
  (s.«end» - s.page_pos) / PAGE_SIZE

/-- Query `PageAllocator::available_pages`: `(page_pos - byte_pos) / PAGE_SIZE`
if `page_pos > byte_pos` else 0. -/
def available_pages (PAGE_SIZE : Nat) (s : EarlyAllocator) : Nat :=
  if s.page_pos > s.byte_pos then (s.page_pos - s.byte_pos) / PAGE_SIZE else 0

/-! ### Bit-level facts about the masking arithmetic -/

theorem two_pow_le_of_lt_W {k : Nat} (h : 2 ^ k < W) : k ≤ 63 := by
  by_contra hk
  have h64 : 64 ≤ k := by omega
  have : (2 : Nat) ^ 64 ≤ 2 ^ k := Nat.pow_le_pow_right (by norm_num) h64
  simp only [W] at h
  omega

/-- Clearing the low `k` bits of `x < 2^n` with the mask `2^n - 2^k`
rounds `x` down to a multiple of `2^k`. -/
theorem land_mask_eq {x k n : Nat} (hk : k ≤ n) (hx : x < 2 ^ n) :
    x &&& (2 ^ n - 2 ^ k) = 2 ^ k * (x / 2 ^ k) := by
  have h1 : 2 ^ n - 2 ^ k = (2 ^ (n - k) - 1) <<< k := by
    rw [Nat.shiftLeft_eq, Nat.sub_mul, one_mul, ← Nat.pow_add]
    congr 2
    omega
  have h2 : 2 ^ k * (x / 2 ^ k) = (x >>> k) <<< k := by
    rw [Nat.shiftRight_eq_div_pow, Nat.shiftLeft_eq, Nat.mul_comm]
  rw [h1, h2]
  apply Nat.eq_of_testBit_eq
  intro i
  rw [Nat.testBit_land, Nat.testBit_shiftLeft, Nat.testBit_shiftLeft,
    Nat.testBit_shiftRight, Nat.testBit_two_pow_sub_one]
  by_cases hik : k ≤ i
  · have hge : i ≥ k := hik
    by_cases hin : i < n
    · have h3 : i - k < n - k := by omega
      have h4 : k + (i - k) = i := by omega
      simp [hge, h3, h4]
    · have h5 : x.testBit i = false := by
        apply Nat.testBit_lt_two_pow
        calc x < 2 ^ n := hx
        _ ≤ 2 ^ i := Nat.pow_le_pow_right (by norm_num) (by omega)
      have h6 : ¬ (i - k < n - k) := by omega
      have h4 : k + (i - k) = i := by omega
      simp [hge, h6, h4, h5]
  · simp [hik]

/-- Characterisation of `align_up` at a power-of-two alignment: it is
the usual round-up `2^k * ⌈(a + 2^k - 1) / 2^k⌉`. -/
theorem align_up_pow2 {a k : Nat} (h : a + 2 ^ k < W) :
    align_up a (2 ^ k) = some (2 ^ k * ((a + 2 ^ k - 1) / 2 ^ k)) := by
  have hpos : (0 : Nat) < 2 ^ k := Nat.pos_pow_of_pos k (by norm_num)
  have hne : (2 : Nat) ^ k ≠ 0 := Nat.pos_iff_ne_zero.mp hpos
  have h63 : k ≤ 63 := two_pow_le_of_lt_W (by omega)
  have hmask : usize_not (2 ^ k - 1) = 2 ^ 64 - 2 ^ k := by
    simp only [usize_not, W]
    omega
  rw [align_up, if_neg hne, if_pos h, hmask]
  congr 1
  exact land_mask_eq (by omega) (by simp only [W] at h; omega)

/-- The power-of-two round-up does not move the address below its input. -/
theorem le_align_up_val {a k : Nat} :
    a ≤ 2 ^ k * ((a + 2 ^ k - 1) / 2 ^ k) := by
  have hpos : (0 : Nat) < 2 ^ k := Nat.pos_pow_of_pos k (by norm_num)
  have hdm := Nat.div_add_mod (a + 2 ^ k - 1) (2 ^ k)
  have hlt := Nat.mod_lt (a + 2 ^ k - 1) hpos
  omega

/-- The power-of-two round-up overshoots by less than the alignment. -/
theorem align_up_val_le {a k : Nat} :
    2 ^ k * ((a + 2 ^ k - 1) / 2 ^ k) ≤ a + 2 ^ k - 1 := by
  have := Nat.div_mul_le_self (a + 2 ^ k - 1) (2 ^ k)
  calc 2 ^ k * ((a + 2 ^ k - 1) / 2 ^ k)
      = (a + 2 ^ k - 1) / 2 ^ k * 2 ^ k := Nat.mul_comm _ _
  _ ≤ a + 2 ^ k - 1 := this

/-! ### Elimination lemmas: what each outcome of an operation implies -/

theorem alloc_ok_elim {s : EarlyAllocator} {sz al addr : Nat} {s' : EarlyAllocator}
    (h : alloc s sz al = .ok addr s') :
    align_up s.byte_pos al = some addr ∧ addr + sz < W ∧
    addr + sz ≤ s.page_pos ∧ addr ≠ 0 ∧
    s' = { s with byte_pos := addr + sz,
                  byte_count := (s.byte_count + 1) % W } := by
  cases hA : align_up s.byte_pos al with
  | none => simp [alloc, hA] at h
  | some a =>
    simp only [alloc, hA] at h
    by_cases h1 : a + sz < W
    · rw [if_pos h1] at h
      by_cases h2 : a + sz > s.page_pos
      · rw [if_pos h2] at h; exact absurd h (by simp)
      · rw [if_neg h2] at h
        by_cases h3 : a = 0
        · rw [if_pos h3] at h; exact absurd h (by simp)
        · rw [if_neg h3] at h
          obtain ⟨rfl, rfl⟩ : a = addr ∧ _ = s' := by
            simpa using h
          exact ⟨rfl, h1, by omega, h3, rfl⟩
    · rw [if_neg h1] at h; exact absurd h (by simp)

theorem alloc_err_elim {s : EarlyAllocator} {sz al : Nat} {e : AllocError}
    {s' : EarlyAllocator} (h : alloc s sz al = .err e s') :
    e = .NoMemory ∧ s' = s ∧
    (∀ a, align_up s.byte_pos al = some a → s.page_pos < a + sz) := by
  cases hA : align_up s.byte_pos al with
  | none => simp [alloc, hA] at h
  | some a =>
    simp only [alloc, hA] at h
    by_cases h1 : a + sz < W
    · rw [if_pos h1] at h
      by_cases h2 : a + sz > s.page_pos
      · rw [if_pos h2] at h
        obtain ⟨rfl, rfl⟩ : AllocError.NoMemory = e ∧ s = s' := by simpa using h
        exact ⟨rfl, rfl, fun a' ha' => by
          obtain rfl : a = a' := by simpa using ha'
          omega⟩
      · rw [if_neg h2] at h
        by_cases h3 : a = 0
        · rw [if_pos h3] at h; exact absurd h (by simp)
        · rw [if_neg h3] at h; exact absurd h (by simp)
    · rw [if_neg h1] at h; exact absurd h (by simp)

theorem alloc_pages_ok_elim {PS : Nat} {s : EarlyAllocator} {n ap addr : Nat}
    {s' : EarlyAllocator} (h : alloc_pages PS s n ap = .ok addr s') :
    n * PS < W ∧ ap ≠ 0 ∧ n * PS ≤ s.page_pos ∧
    addr = (s.page_pos - n * PS) &&& usize_not (ap - 1) ∧
    s.byte_pos < addr ∧ addr ≤ s.page_pos - n * PS ∧
    s' = { s with page_pos := addr } := by
  simp only [alloc_pages] at h
  by_cases h1 : n * PS < W
  · rw [if_pos h1] at h
    by_cases h2 : ap = 0
    · rw [if_pos h2] at h; exact absurd h (by simp)
    · rw [if_neg h2] at h
      by_cases h3 : n * PS ≤ s.page_pos
      · rw [checked_sub, if_pos h3] at h
        simp only at h
        by_cases h4 : (s.page_pos - n * PS) &&& usize_not (ap - 1) ≤ s.byte_pos
        · rw [if_pos h4] at h; exact absurd h (by simp)
        · rw [if_neg h4] at h
          obtain ⟨rfl, rfl⟩ : _ = addr ∧ _ = s' := by simpa using h
          exact ⟨h1, h2, h3, rfl, by omega, Nat.and_le_left, rfl⟩
      · rw [checked_sub, if_neg h3] at h; exact absurd h (by simp)
  · rw [if_neg h1] at h; exact absurd h (by simp)

theorem alloc_pages_err_elim {PS : Nat} {s : EarlyAllocator} {n ap : Nat}
    {e : AllocError} {s' : EarlyAllocator}
    (h : alloc_pages PS s n ap = .err e s') :
    e = .NoMemory ∧ s' = s ∧
    (s.page_pos < n * PS ∨
      (s.page_pos - n * PS) &&& usize_not (ap - 1) ≤ s.byte_pos) := by
  simp only [alloc_pages] at h
  by_cases h1 : n * PS < W
  · rw [if_pos h1] at h
    by_cases h2 : ap = 0
    · rw [if_pos h2] at h; exact absurd h (by simp)
    · rw [if_neg h2] at h
      by_cases h3 : n * PS ≤ s.page_pos
      · rw [checked_sub, if_pos h3] at h
        simp only at h
        by_cases h4 : (s.page_pos - n * PS) &&& usize_not (ap - 1) ≤ s.byte_pos
        · rw [if_pos h4] at h
          obtain ⟨rfl, rfl⟩ : AllocError.NoMemory = e ∧ s = s' := by simpa using h
          exact ⟨rfl, rfl, Or.inr h4⟩
        · rw [if_neg h4] at h; exact absurd h (by simp)
      · rw [checked_sub, if_neg h3] at h
        obtain ⟨rfl, rfl⟩ : AllocError.NoMemory = e ∧ s = s' := by simpa using h
        exact ⟨rfl, rfl, Or.inl (by omega)⟩
  · rw [if_neg h1] at h; exact absurd h (by simp)

/-! ### Single-threaded call sequences

`Step` is one completed allocator call (a call that panics aborts the
program, so panicking outcomes produce no step).  Byte allocations come
through `core::alloc::Layout`, whose type invariant guarantees a
power-of-two alignment, hence the `2 ^ k` in the byte constructors; the
raw `usize` argument `align_pow2` of `alloc_pages` is unconstrained. -/

inductive Step (PS : Nat) : EarlyAllocator → EarlyAllocator → Prop where
  | byte_ok : ∀ s sz k addr s',
      alloc s sz (2 ^ k) = .ok addr s' → Step PS s s'
  | byte_err : ∀ s sz k e s',
      alloc s sz (2 ^ k) = .err e s' → Step PS s s'
  | byte_free : ∀ s, Step PS s (dealloc s)
  | page_ok : ∀ s n ap addr s',
      alloc_pages PS s n ap = .ok addr s' → Step PS s s'
  | page_err : ∀ s n ap e s',
      alloc_pages PS s n ap = .err e s' → Step PS s s'
  | page_free : ∀ s pos n, Step PS s (dealloc_pages s pos n)
  | mem_add : ∀ s st sz, Step PS s (add_memory s st sz).2

/-- States reachable from `init(start, size)` by any single-threaded
sequence of allocator calls. -/
inductive Reach (PS start size : Nat) : EarlyAllocator → Prop where
  | base : ∀ s0, init new start size = some s0 → Reach PS start size s0
  | step : ∀ s s', Reach PS start size s → Step PS s s' →
      Reach PS start size s'

/-- The bounds invariant of the allocator, together with the `usize`
range bound on `end` that `init` establishes. -/
def Inv (s : EarlyAllocator) : Prop :=
  s.start ≤ s.byte_pos ∧ s.byte_pos ≤ s.page_pos ∧
  s.page_pos ≤ s.«end» ∧ s.«end» < W

theorem init_elim {s s0 : EarlyAllocator} {start size : Nat}
    (h : init s start size = some s0) :
    start + size < W ∧
    s0 = { start := start, «end» := start + size, byte_pos := start,
           page_pos := start + size, byte_count := 0 } := by
  by_cases h1 : start + size < W
  · rw [init, if_pos h1] at h
    exact ⟨h1, by simpa using h.symm⟩
  · rw [init, if_neg h1] at h
    exact absurd h (by simp)

theorem inv_init {s s0 : EarlyAllocator} {start size : Nat}
    (h : init s start size = some s0) : Inv s0 := by
  obtain ⟨h1, rfl⟩ := init_elim h
  refine ⟨Nat.le.refl, by simp, by simp, by simpa using h1⟩

/-- A successful byte allocation at a power-of-two alignment returns an
address at or above the byte cursor. -/
theorem alloc_ok_addr_ge {s : EarlyAllocator} {sz k addr : Nat}
    {s' : EarlyAllocator} (h : alloc s sz (2 ^ k) = .ok addr s') :
    s.byte_pos ≤ addr := by
  obtain ⟨hA, _, _, _, _⟩ := alloc_ok_elim h
  by_cases hW : s.byte_pos + 2 ^ k < W
  · rw [align_up_pow2 hW] at hA
    obtain rfl : 2 ^ k * ((s.byte_pos + 2 ^ k - 1) / 2 ^ k) = addr := by
      simpa using hA
    exact le_align_up_val
  · rw [align_up] at hA
    rw [if_neg (Nat.pos_iff_ne_zero.mp (Nat.pos_pow_of_pos k (by norm_num))),
      if_neg hW] at hA
    exact absurd hA (by simp)

theorem inv_step {PS : Nat} {s s' : EarlyAllocator}
    (hstep : Step PS s s') (hinv : Inv s) : Inv s' := by
  obtain ⟨i1, i2, i3, i4⟩ := hinv
  cases hstep with
  | byte_ok sz k addr t h =>
    have hge := alloc_ok_addr_ge h
    obtain ⟨hA, hW, hle, hnz, rfl⟩ := alloc_ok_elim h
    refine ⟨by simp; omega, by simp; omega, by simpa using i3, by simpa using i4⟩
  | byte_err sz k e t h =>
    obtain ⟨_, rfl, _⟩ := alloc_err_elim h
    exact ⟨i1, i2, i3, i4⟩
  | byte_free =>
    rw [dealloc]
    by_cases hc : s.byte_count = 1
    · rw [if_pos hc]
      refine ⟨Nat.le.refl, by simp; omega, by simpa using i3, by simpa using i4⟩
    · rw [if_neg hc]
      refine ⟨by simpa using i1, by simp; omega, by simpa using i3, by simpa using i4⟩
  | page_ok n ap addr t h =>
    obtain ⟨_, _, hsub, _, hgt, hle, rfl⟩ := alloc_pages_ok_elim h
    refine ⟨by simpa using i1, by simp; omega, by simp; omega, by simpa using i4⟩
  | page_err n ap e t h =>
    obtain ⟨_, rfl, _⟩ := alloc_pages_err_elim h
    exact ⟨i1, i2, i3, i4⟩
  | page_free pos n =>
    exact ⟨i1, i2, i3, i4⟩
  | mem_add st sz =>
    exact ⟨i1, i2, i3, i4⟩

theorem reach_inv {PS start size : Nat} {s : EarlyAllocator}
    (h : Reach PS start size s) : Inv s := by
  induction h with
  | base s0 h0 => exact inv_init h0
  | step s s' _ hstep ih => exact inv_step hstep ih

/-- No allocator call moves `start` or `end`. -/
theorem step_bounds_const {PS : Nat} {s s' : EarlyAllocator}
    (hstep : Step PS s s') : s'.start = s.start ∧ s'.«end» = s.«end» := by
  cases hstep with
  | byte_ok sz k addr t h =>
    obtain ⟨_, _, _, _, rfl⟩ := alloc_ok_elim h; exact ⟨rfl, rfl⟩
  | byte_err sz k e t h =>
    obtain ⟨_, rfl, _⟩ := alloc_err_elim h; exact ⟨rfl, rfl⟩
  | byte_free =>
    rw [dealloc]
    by_cases hc : s.byte_count = 1
    · rw [if_pos hc]; exact ⟨rfl, rfl⟩
    · rw [if_neg hc]; exact ⟨rfl, rfl⟩
  | page_ok n ap addr t h =>
    obtain ⟨_, _, _, _, _, _, rfl⟩ := alloc_pages_ok_elim h; exact ⟨rfl, rfl⟩
  | page_err n ap e t h =>
    obtain ⟨_, rfl, _⟩ := alloc_pages_err_elim h; exact ⟨rfl, rfl⟩
  | page_free pos n => exact ⟨rfl, rfl⟩
  | mem_add st sz => exact ⟨rfl, rfl⟩

theorem reach_bounds {PS start size : Nat} {s : EarlyAllocator}
    (h : Reach PS start size s) :
    s.start = start ∧ s.«end» = start + size := by
  induction h with
  | base s0 h0 =>
    obtain ⟨_, rfl⟩ := init_elim h0
    exact ⟨rfl, rfl⟩
  | step s s' _ hstep ih =>
    obtain ⟨h1, h2⟩ := step_bounds_const hstep
    exact ⟨h1.trans ih.1, h2.trans ih.2⟩

/-! ### Shared concrete states (region `[0x1000, 0x3000)`, page size `0x1000`) -/

/-- State straight after `init(0x1000, 0x2000)`. -/
def sA : EarlyAllocator := ⟨0x1000, 0x3000, 0x1000, 0x3000, 0⟩

/-- State `sA` after a successful `alloc(size = 16, align = 8)`. -/
def sB : EarlyAllocator := ⟨0x1000, 0x3000, 0x1010, 0x3000, 1⟩

/-- State `sB` after a successful `alloc_pages(num_pages = 1, align_pow2 = 0x1000)`. -/
def sC : EarlyAllocator := ⟨0x1000, 0x3000, 0x1010, 0x2000, 1⟩

/-! ### Claim theorems -/

/-- Claim C1: for every `init(start, size)` whose `start + size` does not
overflow, and every subsequent single-threaded sequence of allocator
calls (in particular every sequence of successful `allocate_bytes` /
`allocate_pages` calls and balanced `deallocate_bytes` calls), the state
satisfies `start ≤ byte_pos ≤ page_pos ≤ end` after every operation. -/
theorem c1_bounds_invariant (PS start size : Nat) (s : EarlyAllocator)
    (h : Reach PS start size s) :
    s.start = start ∧ s.«end» = start + size ∧
    start ≤ s.byte_pos ∧ s.byte_pos ≤ s.page_pos ∧
    s.page_pos ≤ start + size := by
  obtain ⟨hs, he⟩ := reach_bounds h
  obtain ⟨i1, i2, i3, _⟩ := reach_inv h
  exact ⟨hs, he, hs ▸ i1, i2, he ▸ i3⟩

/-- Witness for C1 at the concrete trace
`init(0x1000, 0x2000); alloc(16, 8); alloc_pages(1, 0x1000)`. -/
theorem c1_bounds_invariant_witness :
    sC.start = 0x1000 ∧ sC.«end» = 0x1000 + 0x2000 ∧
    0x1000 ≤ sC.byte_pos ∧ sC.byte_pos ≤ sC.page_pos ∧
    sC.page_pos ≤ 0x1000 + 0x2000 :=
  c1_bounds_invariant 0x1000 0x1000 0x2000 sC
    (Reach.step sB sC
      (Reach.step sA sB (Reach.base sA (by decide))
        (Step.byte_ok sA 16 3 0x1000 sB (by decide)))
      (Step.page_ok sB 1 0x1000 0x2000 sC (by decide)))

/-- Claim C2: every failing allocation returns `NoMemory` and mutates no state;
`allocate_bytes(size, align)` fails exactly when the aligned byte cursor
plus `size` exceeds `page_pos`, and `allocate_pages(count, align_pow2)`
fails exactly when `page_pos - count * PAGE_SIZE` underflows or the
down-aligned candidate is `≤ byte_pos` (the side conditions say the
call's own `usize` arithmetic does not trap, i.e. the call really
returns). -/
theorem c2_failure_characterisation (PS : Nat) (s : EarlyAllocator)
    (sz al n ap : Nat) :
    (∀ e t, alloc s sz al = .err e t → e = .NoMemory ∧ t = s) ∧
    (∀ e t, alloc_pages PS s n ap = .err e t → e = .NoMemory ∧ t = s) ∧
    (∀ a, align_up s.byte_pos al = some a → a + sz < W →
      (alloc s sz al = .err .NoMemory s ↔ s.page_pos < a + sz)) ∧
    (n * PS < W → ap ≠ 0 →
      (alloc_pages PS s n ap = .err .NoMemory s ↔
        s.page_pos < n * PS ∨
        (s.page_pos - n * PS) &&& usize_not (ap - 1) ≤ s.byte_pos)) := by
  refine ⟨?_, ?_, ?_, ?_⟩
  · intro e t h
    obtain ⟨he, hs, _⟩ := alloc_err_elim h
    exact ⟨he, hs⟩
  · intro e t h
    obtain ⟨he, hs, _⟩ := alloc_pages_err_elim h
    exact ⟨he, hs⟩
  · intro a hA hW
    constructor
    · intro h
      exact (alloc_err_elim h).2.2 a hA
    · intro hgt
      simp only [alloc, hA]
      rw [if_pos hW, if_pos (by omega : a + sz > s.page_pos)]
  · intro hW hap
    constructor
    · intro h
      exact (alloc_pages_err_elim h).2.2
    · intro hor
      by_cases hu : s.page_pos < n * PS
      · simp only [alloc_pages]
        rw [if_pos hW, if_neg hap, checked_sub, if_neg (by omega)]
      · have hal : (s.page_pos - n * PS) &&& usize_not (ap - 1) ≤ s.byte_pos := by
          rcases hor with h1 | h2
          · omega
          · exact h2
        simp only [alloc_pages]
        rw [if_pos hW, if_neg hap, checked_sub, if_pos (by omega)]
        simp only
        rw [if_pos hal]

/-- Witness for C2: at `sC`, a byte request of `0x1000` bytes with
alignment 1 fails with `NoMemory`, and a request for one more page also
fails with `NoMemory`. -/
theorem c2_failure_characterisation_witness :
    alloc sC 0x1000 1 = .err .NoMemory sC ∧
    alloc_pages 0x1000 sC 1 0x1000 = .err .NoMemory sC := by
  have h := c2_failure_characterisation 0x1000 sC 0x1000 1 1 0x1000
  refine ⟨?_, ?_⟩
  · exact (h.2.2.1 0x1010 (by decide) (by decide)).mpr (by decide)
  · exact (h.2.2.2 (by decide) (by decide)).mpr (by decide)

/-- Claim C7: the concrete scenario on region `[0x1000, 0x3000)` with
`PAGE_SIZE = 0x1000`: `alloc(16, 8)` returns `0x1000` and
`used_bytes = 16`; `alloc_pages(1, 0x1000)` returns `0x2000` and
`used_pages = 1`; a further `alloc(0x1000, 1)` fails with `NoMemory`;
deallocating the single outstanding byte allocation resets `byte_pos`
to `0x1000`. -/
theorem c7_concrete_scenario :
    init new 0x1000 0x2000 = some sA ∧
    alloc sA 16 8 = .ok 0x1000 sB ∧ used_bytes sB = 16 ∧
    alloc_pages 0x1000 sB 1 0x1000 = .ok 0x2000 sC ∧
    used_pages 0x1000 sC = 1 ∧
    alloc sC 0x1000 1 = .err .NoMemory sC ∧
    (dealloc sC).byte_pos = 0x1000 := by
  decide

/-- Claim C9: `add_memory(start, size)` always returns the invalid-parameter
error and leaves every field of the allocator unchanged. -/
theorem c9_add_memory_rejected (s : EarlyAllocator) (start size : Nat) :
    add_memory s start size = (Except.error AllocError.InvalidParam, s) :=
  rfl

theorem alloc_nullPanic_elim {s : EarlyAllocator} {sz al : Nat}
    {t : EarlyAllocator} (h : alloc s sz al = .nullPanic t) :
    align_up s.byte_pos al = some 0 := by
  cases hA : align_up s.byte_pos al with
  | none => simp [alloc, hA] at h
  | some a =>
    simp only [alloc, hA] at h
    by_cases h1 : a + sz < W
    · rw [if_pos h1] at h
      by_cases h2 : a + sz > s.page_pos
      · rw [if_pos h2] at h; exact absurd h (by simp)
      · rw [if_neg h2] at h
        by_cases h3 : a = 0
        · subst h3; rfl
        · rw [if_neg h3] at h; exact absurd h (by simp)
    · rw [if_neg h1] at h; exact absurd h (by simp)

/-- Claim C6: after `init`, no operation ever increases `page_pos`:
`dealloc_pages` changes no state at all, byte-facet operations leave
`page_pos` unchanged, every single call can only lower `page_pos`, and
consequently `used_pages` is non-decreasing across any single-threaded
sequence of calls. -/
theorem c6_page_monotonicity (PS : Nat) :
    (∀ s pos n, dealloc_pages s pos n = s) ∧
    (∀ s sz al addr s', alloc s sz al = .ok addr s' →
      s'.page_pos = s.page_pos) ∧
    (∀ s sz al e s', alloc s sz al = .err e s' →
      s'.page_pos = s.page_pos) ∧
    (∀ s, (dealloc s).page_pos = s.page_pos) ∧
    (∀ s s', Step PS s s' → s'.page_pos ≤ s.page_pos) ∧
    (∀ s s', Relation.ReflTransGen (Step PS) s s' →
      used_pages PS s ≤ used_pages PS s') := by
  have hstep : ∀ s s' : EarlyAllocator, Step PS s s' →
      s'.page_pos ≤ s.page_pos := by
    intro s s' hst
    cases hst with
    | byte_ok sz k addr t h =>
      obtain ⟨_, _, _, _, rfl⟩ := alloc_ok_elim h; exact Nat.le.refl
    | byte_err sz k e t h =>
      obtain ⟨_, rfl, _⟩ := alloc_err_elim h; exact Nat.le.refl
    | byte_free =>
      rw [dealloc]
      by_cases hc : s.byte_count = 1
      · rw [if_pos hc]
      · rw [if_neg hc]
    | page_ok n ap addr t h =>
      obtain ⟨_, _, hsub, _, _, hle, rfl⟩ := alloc_pages_ok_elim h
      simp only
      omega
    | page_err n ap e t h =>
      obtain ⟨_, rfl, _⟩ := alloc_pages_err_elim h; exact Nat.le.refl
    | page_free pos n => exact Nat.le.refl
    | mem_add st sz => exact Nat.le.refl
  refine ⟨fun s pos n => rfl, ?_, ?_, ?_, hstep, ?_⟩
  · intro s sz al addr s' h
    obtain ⟨_, _, _, _, rfl⟩ := alloc_ok_elim h; rfl
  · intro s sz al e s' h
    obtain ⟨_, rfl, _⟩ := alloc_err_elim h; rfl
  · intro s
    rw [dealloc]
    by_cases hc : s.byte_count = 1
    · rw [if_pos hc]
    · rw [if_neg hc]
  · intro s s' h
    induction h with
    | refl => exact Nat.le.refl
    | tail hab hbc ih =>
      refine ih.trans ?_
      have h1 := hstep _ _ hbc
      have h2 := (step_bounds_const hbc).2
      rw [used_pages, used_pages, h2]
      exact Nat.div_le_div_right (Nat.sub_le_sub_left h1 _)

/-- Witness for C6 along the one-step chain `sB → sC`
(`alloc_pages(1, 0x1000)` on region `[0x1000, 0x3000)`). -/
theorem c6_page_monotonicity_witness :
    used_pages 0x1000 sB ≤ used_pages 0x1000 sC :=
  (c6_page_monotonicity 0x1000).2.2.2.2.2 sB sC
    (Relation.ReflTransGen.single
      (Step.page_ok sB 1 0x1000 0x2000 sC (by decide)))

/-- Claim C8: in every reachable state the introspection operations return
exactly `total_bytes = end - start`, `used_bytes = byte_pos - start`,
`available_bytes = max 0 (page_pos - byte_pos)`,
`total_pages = (end - start) / PAGE_SIZE`,
`used_pages = (end - page_pos) / PAGE_SIZE` and
`available_pages = max 0 (page_pos - byte_pos) / PAGE_SIZE` (stated over
`ℤ`, where the subtractions cannot truncate); mutation-freedom holds by
construction since the queries are pure functions of the state. -/
theorem c8_introspection (PS start size : Nat) (s : EarlyAllocator)
    (h : Reach PS start size s) :
    (total_bytes s : Int) = (s.«end» : Int) - (s.start : Int) ∧
    (used_bytes s : Int) = (s.byte_pos : Int) - (s.start : Int) ∧
    (available_bytes s : Int) = max 0 ((s.page_pos : Int) - (s.byte_pos : Int)) ∧
    (total_pages PS s : Int) =
      ((s.«end» : Int) - (s.start : Int)) / (PS : Int) ∧
    (used_pages PS s : Int) =
      ((s.«end» : Int) - (s.page_pos : Int)) / (PS : Int) ∧
    (available_pages PS s : Int) =
      max 0 ((s.page_pos : Int) - (s.byte_pos : Int)) / (PS : Int) := by
  obtain ⟨i1, i2, i3, _⟩ := reach_inv h
  have hse : s.start ≤ s.«end» := le_trans i1 (le_trans i2 i3)
  have hpe : s.page_pos ≤ s.«end» := i3
  refine ⟨?_, ?_, ?_, ?_, ?_, ?_⟩
  · rw [total_bytes, Nat.cast_sub hse]
  · rw [used_bytes, Nat.cast_sub i1]
  · rw [available_bytes]
    by_cases hlt : s.page_pos > s.byte_pos
    · rw [if_pos hlt, Nat.cast_sub (le_of_lt hlt),
        max_eq_right (by omega)]
    · rw [if_neg hlt, max_eq_left (by omega)]
      simp
  · rw [total_pages, ← Nat.cast_sub hse, Int.natCast_div]
  · rw [used_pages, ← Nat.cast_sub hpe, Int.natCast_div]
  · rw [available_pages]
    by_cases hlt : s.page_pos > s.byte_pos
    · rw [if_pos hlt, max_eq_right (by omega),
        ← Nat.cast_sub (le_of_lt hlt), Int.natCast_div]
    · rw [if_neg hlt, max_eq_left (by omega)]
      simp

/-- Witness for C8 at the reachable state `sC`. -/
theorem c8_introspection_witness :
    (total_bytes sC : Int) = (sC.«end» : Int) - (sC.start : Int) ∧
    (used_bytes sC : Int) = (sC.byte_pos : Int) - (sC.start : Int) ∧
    (available_bytes sC : Int) =
      max 0 ((sC.page_pos : Int) - (sC.byte_pos : Int)) ∧
    (total_pages 0x1000 sC : Int) =
      ((sC.«end» : Int) - (sC.start : Int)) / (0x1000 : Int) ∧
    (used_pages 0x1000 sC : Int) =
      ((sC.«end» : Int) - (sC.page_pos : Int)) / (0x1000 : Int) ∧
    (available_pages 0x1000 sC : Int) =
      max 0 ((sC.page_pos : Int) - (sC.byte_pos : Int)) / (0x1000 : Int) :=
  c8_introspection 0x1000 0x1000 0x2000 sC
    (Reach.step sB sC
      (Reach.step sA sB (Reach.base sA (by decide))
        (Step.byte_ok sA 16 3 0x1000 sB (by decide)))
      (Step.page_ok sB 1 0x1000 0x2000 sC (by decide)))

/-- Claim C10: if the region was bound with `start > 0`, then in every
reachable state no byte allocation can trip the
`NonNull::new(..).unwrap()`: the `nullPanic` outcome is impossible and
every successful call returns a non-zero address.  (`align = 2 ^ k`
reflects the power-of-two alignment guaranteed by `core::alloc::Layout`.) -/
theorem c10_nonnull_pointer (PS start size : Nat) (s : EarlyAllocator)
    (h : Reach PS start size s) (h0 : 0 < start) (sz k : Nat) :
    (∀ t, alloc s sz (2 ^ k) ≠ .nullPanic t) ∧
    (∀ addr t, alloc s sz (2 ^ k) = .ok addr t → 0 < addr) := by
  have hbp : 0 < s.byte_pos := by
    obtain ⟨hs, _⟩ := reach_bounds h
    obtain ⟨i1, _, _, _⟩ := reach_inv h
    omega
  constructor
  · intro t hnp
    have hA := alloc_nullPanic_elim hnp
    by_cases hW : s.byte_pos + 2 ^ k < W
    · rw [align_up_pow2 hW] at hA
      have h1 : 2 ^ k * ((s.byte_pos + 2 ^ k - 1) / 2 ^ k) = 0 := by
        simpa using hA.symm
      have h2 := le_align_up_val (a := s.byte_pos) (k := k)
      omega
    · rw [align_up] at hA
      rw [if_neg (Nat.pos_iff_ne_zero.mp (Nat.pos_pow_of_pos k (by norm_num))),
        if_neg hW] at hA
      exact absurd hA (by simp)
  · intro addr t hok
    have := alloc_ok_addr_ge hok
    omega

/-- Witness for C10 at the reachable state `sA` (with `start = 0x1000 > 0`). -/
theorem c10_nonnull_pointer_witness :
    (∀ t, alloc sA 16 (2 ^ 3) ≠ .nullPanic t) ∧
    (∀ addr t, alloc sA 16 (2 ^ 3) = .ok addr t → 0 < addr) :=
  c10_nonnull_pointer 0x1000 0x1000 0x2000 sA
    (Reach.base sA (by decide)) (by decide) 16 3

/-! ### Byte bulk-reclaim (claim C3) -/

theorem W_pos : 0 < W := by norm_num [W]

theorem one_lt_W : 1 < W := by norm_num [W]

/-- Unfolding of `dealloc` as a single conditional. -/
theorem dealloc_eq (s : EarlyAllocator) : dealloc s =
    if s.byte_count = 1
    then { s with byte_pos := s.start,
                  byte_count := (s.byte_count + W - 1) % W }
    else { s with byte_count := (s.byte_count + W - 1) % W } := by
  rfl

/-- Relation `AllocChain s n s'`: `n` consecutive successful byte allocations
turn state `s` into state `s'`. -/
inductive AllocChain : EarlyAllocator → Nat → EarlyAllocator → Prop where
  | nil : ∀ s, AllocChain s 0 s
  | cons : ∀ s sz al addr s₁ n s₂, alloc s sz al = .ok addr s₁ →
      AllocChain s₁ n s₂ → AllocChain s (n + 1) s₂

/-- Successful byte allocations leave `start`, `end` and `page_pos`
alone and advance the (wrapping) live count by one each. -/
theorem allocChain_facts {s : EarlyAllocator} {n : Nat} {s' : EarlyAllocator}
    (h : AllocChain s n s') (hc : s.byte_count < W) :
    s'.start = s.start ∧ s'.«end» = s.«end» ∧ s'.page_pos = s.page_pos ∧
    s'.byte_count = (s.byte_count + n) % W := by
  induction h with
  | nil s =>
    exact ⟨rfl, rfl, rfl, by rw [Nat.add_zero, Nat.mod_eq_of_lt hc]⟩
  | cons s sz al addr s₁ n s₂ hok hch ih =>
    obtain ⟨_, _, _, _, rfl⟩ := alloc_ok_elim hok
    obtain ⟨f1, f2, f3, f4⟩ := ih (Nat.mod_lt _ W_pos)
    refine ⟨f1, f2, f3, ?_⟩
    rw [f4]
    simp only [Nat.mod_add_mod]
    congr 1
    omega

theorem count_pred_mod {m : Nat} (h2 : 1 ≤ m) (hW : m ≤ W) :
    (m % W + W - 1) % W = m - 1 := by
  rcases Nat.lt_or_ge m W with hlt | hge
  · rw [Nat.mod_eq_of_lt hlt, show m + W - 1 = (m - 1) + W by omega,
      Nat.add_mod_right, Nat.mod_eq_of_lt (by omega)]
  · have hEq : m = W := by omega
    subst hEq
    rw [Nat.mod_self, Nat.zero_add, Nat.mod_eq_of_lt (by omega)]

/-- Claim C3 (amended: `N ≤ 2 ^ 64`): starting from any reachable state with no
outstanding byte allocation, after `N` successful `allocate_bytes` calls
followed by `N` `deallocate_bytes` calls (the order of the deallocations
is immaterial: `dealloc` ignores its pointer and layout arguments), each
of the first `N - 1` deallocations leaves `byte_pos` unchanged, and the
`N`-th deallocation resets `byte_pos` to `start` and makes
`available_bytes() = page_pos - start`.  For `N > 2 ^ 64` this fails
because the `usize` live counter wraps (see the counterexample). -/
theorem c3_bulk_reclaim_amended (PS start size : Nat) (s : EarlyAllocator)
    (h : Reach PS start size s) (h0 : s.byte_count = 0)
    (N : Nat) (hN1 : 1 ≤ N) (hNW : N ≤ W)
    (s' : EarlyAllocator) (hchain : AllocChain s N s') :
    (∀ j, j ≤ N - 1 → (dealloc^[j] s').byte_pos = s'.byte_pos) ∧
    (dealloc^[N] s').byte_pos = s.start ∧
    available_bytes (dealloc^[N] s') = s.page_pos - s.start := by
  obtain ⟨hst, hen, hpp, hcnt⟩ := allocChain_facts hchain (by omega)
  rw [h0, Nat.zero_add] at hcnt
  have key : ∀ j, j ≤ N - 1 →
      (dealloc^[j] s').byte_pos = s'.byte_pos ∧
      (dealloc^[j] s').byte_count = (N - j) % W ∧
      (dealloc^[j] s').start = s'.start ∧
      (dealloc^[j] s').page_pos = s'.page_pos := by
    intro j
    induction j with
    | zero => exact fun _ => ⟨rfl, by rw [Nat.sub_zero]; exact hcnt, rfl, rfl⟩
    | succ j ih =>
      intro hj
      obtain ⟨k1, k2, k3, k4⟩ := ih (by omega)
      have hne : (dealloc^[j] s').byte_count ≠ 1 := by
        rw [k2]
        rcases Nat.lt_or_ge (N - j) W with hlt | hge
        · rw [Nat.mod_eq_of_lt hlt]; omega
        · rw [show N - j = W by omega, Nat.mod_self]
          have := one_lt_W
          omega
      rw [Function.iterate_succ_apply', dealloc_eq, if_neg hne]
      refine ⟨k1, ?_, k3, k4⟩
      show ((dealloc^[j] s').byte_count + W - 1) % W = _
      rw [k2, count_pred_mod (by omega) (by omega),
        Nat.mod_eq_of_lt (by omega)]
      omega
  obtain ⟨k1, k2, k3, k4⟩ := key (N - 1) (Nat.le.refl)
  have hlast : (dealloc^[N - 1] s').byte_count = 1 := by
    rw [k2, show N - (N - 1) = 1 by omega, Nat.mod_eq_of_lt one_lt_W]
  have hNsplit : N = (N - 1) + 1 := by omega
  constructor
  · intro j hj
    exact (key j hj).1
  rw [hNsplit, Function.iterate_succ_apply', dealloc_eq, if_pos hlast]
  constructor
  · show (dealloc^[N - 1] s').start = s.start
    rw [k3, hst]
  · obtain ⟨i1, i2, i3, _⟩ := reach_inv h
    rw [available_bytes]
    show (if (dealloc^[N-1] s').page_pos > (dealloc^[N-1] s').start then
      (dealloc^[N-1] s').page_pos - (dealloc^[N-1] s').start else 0) = _
    rw [k3, k4, hst, hpp]
    by_cases hgt : s.page_pos > s.start
    · rw [if_pos hgt]
    · rw [if_neg hgt]
      omega

/-- Witness for C3 (amended) with `N = 1` on region `[0x1000, 0x3000)`:
one allocation of 16 bytes, then one deallocation. -/
theorem c3_bulk_reclaim_amended_witness :
    (∀ j, j ≤ 1 - 1 → (dealloc^[j] sB).byte_pos = sB.byte_pos) ∧
    (dealloc^[1] sB).byte_pos = sA.start ∧
    available_bytes (dealloc^[1] sB) = sA.page_pos - sA.start :=
  c3_bulk_reclaim_amended 0x1000 0x1000 0x2000 sA
    (Reach.base sA (by decide)) (by decide) 1 (by decide)
    (by norm_num [W]) sB
    (AllocChain.cons sA 16 8 0x1000 sB 0 sB (by decide) (AllocChain.nil sB))

/-! Claim C3 counterexample machinery: with `N = 2 ^ 64 + 1` successful byte
allocations (one of size 1 and `2 ^ 64` of size 0) the `usize` live
counter has wrapped back to 1, so the very first deallocation — one of
the "first `N - 1`" — already resets `byte_pos`. -/

/-- Fresh state of `init(0x1000, 0x1000)` (region `[0x1000, 0x2000)`). -/
def sD : EarlyAllocator := ⟨0x1000, 0x2000, 0x1000, 0x2000, 0⟩

/-- State `sD` after one successful `alloc(1, 1)`, with live count `c`. -/
def sE (c : Nat) : EarlyAllocator := ⟨0x1000, 0x2000, 0x1001, 0x2000, c⟩

theorem zero_alloc_step (c : Nat) :
    alloc (sE c) 0 1 = .ok 0x1001 (sE ((c + 1) % W)) := by
  have hA : align_up (sE c).byte_pos 1 = some 0x1001 := by
    rw [align_up, if_neg (by norm_num), if_pos (by norm_num [sE, W])]
    show some ((0x1001 + 1 - 1) &&& usize_not 0) = _
    rw [show (0x1001 + 1 - 1 : Nat) = 0x1001 by norm_num,
      show usize_not 0 = 2 ^ 64 - 1 by norm_num [usize_not, W],
      Nat.and_pow_two_sub_one_eq_mod]
  simp only [alloc, hA]
  rw [if_pos (by norm_num [W]), if_neg (by norm_num [sE]), if_neg (by norm_num)]
  simp [sE]

theorem zero_alloc_chain : ∀ (n c : Nat), c < W →
    AllocChain (sE c) n (sE ((c + n) % W)) := by
  intro n
  induction n with
  | zero =>
    intro c hc
    rw [Nat.add_zero, Nat.mod_eq_of_lt hc]
    exact AllocChain.nil _
  | succ n ih =>
    intro c hc
    refine AllocChain.cons _ 0 1 0x1001 _ n _ (zero_alloc_step c) ?_
    have h2 := ih ((c + 1) % W) (Nat.mod_lt _ W_pos)
    have h3 : ((c + 1) % W + n) % W = (c + (n + 1)) % W := by
      rw [Nat.mod_add_mod]
      congr 1
      omega
    rw [h3] at h2
    exact h2

/-- Claim C3 counterexample: from the freshly bound region `[0x1000, 0x2000)`,
take `N = 2 ^ 64 + 1` successful byte allocations (one 1-byte allocation
that moves the cursor to `0x1001`, then `2 ^ 64` zero-byte allocations);
the wrapping `usize` live counter ends at 1, so the **first**
deallocation — although `1 ≤ N - 1` — already changes `byte_pos`
(resetting it to `start`), contradicting the claim that each of the
first `N - 1` deallocations leaves `byte_pos` unchanged. -/
theorem c3_bulk_reclaim_counterexample :
    init new 0x1000 0x1000 = some sD ∧ sD.byte_count = 0 ∧
    AllocChain sD (W + 1) (sE 1) ∧ 1 ≤ (W + 1) - 1 ∧
    (dealloc^[1] (sE 1)).byte_pos ≠ (sE 1).byte_pos := by
  refine ⟨by decide, by decide, ?_, ?_, ?_⟩
  · have h1 : alloc sD 1 1 = .ok 0x1000 (sE 1) := by decide
    have h2 := zero_alloc_chain W 1 one_lt_W
    have h3 : (1 + W) % W = 1 := by
      rw [Nat.add_comm, Nat.add_mod_left, Nat.mod_eq_of_lt one_lt_W]
    rw [h3] at h2
    exact AllocChain.cons sD 1 1 0x1000 (sE 1) W (sE 1) h1 h2
  · have := one_lt_W
    omega
  · rw [Function.iterate_one, dealloc_eq, if_pos (by norm_num [sE])]
    norm_num [sE]

/-! ### Page allocation correctness (claim C5) -/

theorem align_up_some_pow2 {a k v : Nat} (h : align_up a (2 ^ k) = some v) :
    a + 2 ^ k < W ∧ v = 2 ^ k * ((a + 2 ^ k - 1) / 2 ^ k) := by
  by_cases hW : a + 2 ^ k < W
  · rw [align_up_pow2 hW] at h
    exact ⟨hW, by simpa using h.symm⟩
  · rw [align_up,
      if_neg (Nat.pos_iff_ne_zero.mp (Nat.pos_pow_of_pos k (by norm_num))),
      if_neg hW] at h
    exact absurd h (by simp)

/-- Relation `PTrace PS start size s P`: `s` is reachable from `init(start, size)`
and `P` is the list of `(address, num_pages * PAGE_SIZE)` ranges granted
by the successful page allocations along the way. -/
inductive PTrace (PS start size : Nat) :
    EarlyAllocator → List (Nat × Nat) → Prop where
  | base : ∀ s0, init new start size = some s0 → PTrace PS start size s0 []
  | byte_ok : ∀ s P sz al addr s', PTrace PS start size s P →
      alloc s sz al = .ok addr s' → PTrace PS start size s' P
  | byte_err : ∀ s P sz al e s', PTrace PS start size s P →
      alloc s sz al = .err e s' → PTrace PS start size s' P
  | byte_free : ∀ s P, PTrace PS start size s P →
      PTrace PS start size (dealloc s) P
  | page_ok : ∀ s P n ap addr s', PTrace PS start size s P →
      alloc_pages PS s n ap = .ok addr s' →
      PTrace PS start size s' ((addr, n * PS) :: P)
  | page_err : ∀ s P n ap e s', PTrace PS start size s P →
      alloc_pages PS s n ap = .err e s' → PTrace PS start size s' P
  | page_free : ∀ s P pos n, PTrace PS start size s P →
      PTrace PS start size (dealloc_pages s pos n) P
  | mem_add : ∀ s P st sz, PTrace PS start size s P →
      PTrace PS start size (add_memory s st sz).2 P

/-- Along any trace, `page_pos` stays in range and every granted page
range lies in `[page_pos, end)`. -/
theorem ptrace_inv {PS start size : Nat} {s : EarlyAllocator}
    {P : List (Nat × Nat)} (h : PTrace PS start size s P) :
    s.page_pos ≤ s.«end» ∧ s.«end» < W ∧
    ∀ r ∈ P, s.page_pos ≤ r.1 ∧ r.1 + r.2 ≤ s.«end» := by
  induction h with
  | base s0 h0 =>
    obtain ⟨h1, rfl⟩ := init_elim h0
    exact ⟨Nat.le.refl, by simpa using h1, by simp⟩
  | byte_ok s P sz al addr s' _ hok ih =>
    obtain ⟨_, _, _, _, rfl⟩ := alloc_ok_elim hok
    exact ih
  | byte_err s P sz al e s' _ herr ih =>
    obtain ⟨_, rfl, _⟩ := alloc_err_elim herr
    exact ih
  | byte_free s P _ ih =>
    rw [dealloc_eq]
    by_cases hc : s.byte_count = 1
    · rw [if_pos hc]; exact ih
    · rw [if_neg hc]; exact ih
  | page_ok s P n ap addr s' _ hok ih =>
    obtain ⟨i1, i2, i3⟩ := ih
    obtain ⟨_, _, hsub, _, hgt, hle, rfl⟩ := alloc_pages_ok_elim hok
    refine ⟨by simp; omega, by simpa using i2, ?_⟩
    intro r hr
    rcases List.mem_cons.mp hr with rfl | hr'
    · simp only
      omega
    · obtain ⟨p1, p2⟩ := i3 r hr'
      simp only
      constructor
      · omega
      · exact p2
  | page_err s P n ap e s' _ herr ih =>
    obtain ⟨_, rfl, _⟩ := alloc_pages_err_elim herr
    exact ih
  | page_free s P pos n _ ih => exact ih
  | mem_add s P st sz _ ih => exact ih

/-- Claim C5: a successful `allocate_pages(count, align_pow2)` with a
power-of-two `align_pow2` (a `usize`, so `< 2 ^ 64`) returns the address
`page_pos - count * PAGE_SIZE` rounded down to `align_pow2`; the address
is `align_pow2`-aligned, the granted range `[addr, addr + count *
PAGE_SIZE)` lies within `[byte_pos, end)`, and it is disjoint from every
previously granted page range of this allocator instance. -/
theorem c5_page_allocation (PS start size : Nat) (s : EarlyAllocator)
    (P : List (Nat × Nat)) (h : PTrace PS start size s P)
    (n k addr : Nat) (s' : EarlyAllocator) (hap : 2 ^ k < W)
    (hok : alloc_pages PS s n (2 ^ k) = .ok addr s') :
    addr = 2 ^ k * ((s.page_pos - n * PS) / 2 ^ k) ∧
    addr % 2 ^ k = 0 ∧
    s.byte_pos ≤ addr ∧ addr + n * PS ≤ s.«end» ∧
    (∀ r ∈ P, addr + n * PS ≤ r.1 ∨ r.1 + r.2 ≤ addr) := by
  obtain ⟨i1, i2, i3⟩ := ptrace_inv h
  obtain ⟨hW, _, hsub, haddr, hgt, hle, rfl⟩ := alloc_pages_ok_elim hok
  have hmask : usize_not (2 ^ k - 1) = 2 ^ 64 - 2 ^ k := by
    have hk1 : (0 : Nat) < 2 ^ k := Nat.pos_pow_of_pos k (by norm_num)
    rw [usize_not, Nat.sub_sub, show 1 + (2 ^ k - 1) = 2 ^ k by omega]
    simp only [W]
  have hlt : s.page_pos - n * PS < 2 ^ 64 := by
    have : W = 2 ^ 64 := rfl
    omega
  have heq : addr = 2 ^ k * ((s.page_pos - n * PS) / 2 ^ k) := by
    rw [haddr, hmask]
    exact land_mask_eq (two_pow_le_of_lt_W hap |>.trans (by omega)) hlt
  refine ⟨heq, ?_, le_of_lt hgt, by omega, ?_⟩
  · rw [heq]
    exact Nat.mul_mod_right _ _
  · intro r hr
    obtain ⟨p1, p2⟩ := i3 r hr
    left
    omega

/-- Witness for C5: the trace `init(0x1000, 0x2000); alloc(16, 8)`
followed by the successful call `alloc_pages(1, 0x1000 = 2 ^ 12)`. -/
theorem c5_page_allocation_witness :
    0x2000 = 2 ^ 12 * ((sB.page_pos - 1 * 0x1000) / 2 ^ 12) ∧
    0x2000 % 2 ^ 12 = 0 ∧
    sB.byte_pos ≤ 0x2000 ∧ 0x2000 + 1 * 0x1000 ≤ sB.«end» ∧
    (∀ r ∈ ([] : List (Nat × Nat)),
      0x2000 + 1 * 0x1000 ≤ r.1 ∨ r.1 + r.2 ≤ 0x2000) :=
  c5_page_allocation 0x1000 0x1000 0x2000 sB []
    (PTrace.byte_ok sA [] 16 8 0x1000 sB
      (PTrace.base sA (by decide)) (by decide))
    1 12 0x2000 sC (by norm_num [W]) (by decide)

/-! ### Byte allocation correctness (claim C4) -/

/-- Relation `BTrace PS start size s L`: `s` is reachable from `init(start, size)`
by a single-threaded sequence in which `L` is the list of
`(address, size)` ranges of the currently-live byte allocations, every
`deallocate_bytes` call frees one currently-live allocation, and fewer
than `2 ^ 64` byte allocations are ever simultaneously live (so the
`usize` live counter never wraps).  Byte alignments are powers of two,
as guaranteed by `core::alloc::Layout`. -/
inductive BTrace (PS start size : Nat) :
    EarlyAllocator → List (Nat × Nat) → Prop where
  | base : ∀ s0, init new start size = some s0 → BTrace PS start size s0 []
  | byte_ok : ∀ s L sz k addr s', BTrace PS start size s L →
      L.length + 1 < W → alloc s sz (2 ^ k) = .ok addr s' →
      BTrace PS start size s' ((addr, sz) :: L)
  | byte_err : ∀ s L sz k e s', BTrace PS start size s L →
      alloc s sz (2 ^ k) = .err e s' → BTrace PS start size s' L
  | byte_free : ∀ s L r, BTrace PS start size s L → r ∈ L →
      BTrace PS start size (dealloc s) (L.erase r)
  | page_ok : ∀ s L n ap addr s', BTrace PS start size s L →
      alloc_pages PS s n ap = .ok addr s' → BTrace PS start size s' L
  | page_err : ∀ s L n ap e s', BTrace PS start size s L →
      alloc_pages PS s n ap = .err e s' → BTrace PS start size s' L
  | page_free : ∀ s L pos n, BTrace PS start size s L →
      BTrace PS start size (dealloc_pages s pos n) L
  | mem_add : ∀ s L st sz, BTrace PS start size s L →
      BTrace PS start size (add_memory s st sz).2 L

/-- Along any byte-disciplined trace: the bounds invariant holds, the
live counter equals the number of live allocations (and has not
wrapped), and every live byte range lies inside `[start, byte_pos)`. -/
theorem btrace_inv {PS start size : Nat} {s : EarlyAllocator}
    {L : List (Nat × Nat)} (h : BTrace PS start size s L) :
    Inv s ∧ s.byte_count = L.length ∧ L.length < W ∧
    ∀ r ∈ L, s.start ≤ r.1 ∧ r.1 + r.2 ≤ s.byte_pos := by
  induction h with
  | base s0 h0 =>
    refine ⟨inv_init h0, ?_, ?_, by simp⟩
    · obtain ⟨_, rfl⟩ := init_elim h0; rfl
    · simpa using W_pos
  | byte_ok s L sz k addr s' _ hcap hok ih =>
    obtain ⟨hi, hc, hlen, hr⟩ := ih
    have hge := alloc_ok_addr_ge hok
    have hinv' := inv_step (show Step PS s s' from Step.byte_ok s sz k addr s' hok) hi
    obtain ⟨hA, hW, hle, hnz, rfl⟩ := alloc_ok_elim hok
    refine ⟨hinv', ?_, by simpa using hcap, ?_⟩
    · show (s.byte_count + 1) % W = L.length + 1
      rw [hc, Nat.mod_eq_of_lt hcap]
    · intro r hrr
      rcases List.mem_cons.mp hrr with rfl | hr'
      · exact ⟨le_trans hi.1 hge, by simp⟩
      · obtain ⟨p1, p2⟩ := hr r hr'
        exact ⟨p1, by simp; omega⟩
  | byte_err s L sz k e s' _ herr ih =>
    obtain ⟨_, rfl, _⟩ := alloc_err_elim herr
    exact ih
  | byte_free s L r _ hmem ih =>
    obtain ⟨hi, hc, hlen, hr⟩ := ih
    have hL1 : 1 ≤ L.length := List.length_pos.mpr (List.ne_nil_of_mem hmem)
    have hlen' : (L.erase r).length = L.length - 1 :=
      List.length_erase_of_mem hmem
    rw [dealloc_eq]
    by_cases hone : s.byte_count = 1
    · have hL : L.length = 1 := by omega
      have hnil : L.erase r = [] :=
        List.eq_nil_of_length_eq_zero (by omega)
      rw [if_pos hone, hnil]
      refine ⟨?_, ?_, ?_, by simp⟩
      · have := inv_step (show Step PS s (dealloc s) from Step.byte_free s) hi
        rw [dealloc_eq, if_pos hone] at this
        exact this
      · show (s.byte_count + W - 1) % W = ([] : List (Nat × Nat)).length
        rw [hone, show 1 + W - 1 = W by omega, Nat.mod_self]
        rfl
      · simpa using W_pos
    · rw [if_neg hone]
      refine ⟨?_, ?_, by omega, ?_⟩
      · have := inv_step (show Step PS s (dealloc s) from Step.byte_free s) hi
        rw [dealloc_eq, if_neg hone] at this
        exact this
      · show (s.byte_count + W - 1) % W = (L.erase r).length
        rw [hc, hlen', show L.length + W - 1 = (L.length - 1) + W by omega,
          Nat.add_mod_right, Nat.mod_eq_of_lt (by omega)]
      · intro r' hr'
        exact hr r' (List.mem_of_mem_erase hr')
  | page_ok s L n ap addr s' _ hok ih =>
    obtain ⟨hi, hc, hlen, hr⟩ := ih
    have hinv' := inv_step (Step.page_ok s n ap addr s' hok) hi
    obtain ⟨_, _, _, _, _, _, rfl⟩ := alloc_pages_ok_elim hok
    exact ⟨hinv', hc, hlen, hr⟩
  | page_err s L n ap e s' _ herr ih =>
    obtain ⟨_, rfl, _⟩ := alloc_pages_err_elim herr
    exact ih
  | page_free s L pos n _ ih => exact ih
  | mem_add s L st sz _ ih => exact ih

/-- Claim C4 (amended: `size ≥ 1`, and the trace discipline of `BTrace` — only
live allocations are freed and fewer than `2 ^ 64` are simultaneously
live): a successful `allocate_bytes(size, align)` with power-of-two
`align` returns the byte cursor rounded up to `align`; the address is
`align`-aligned, lies in `[start, page_pos)` (with the whole range ending
by `page_pos`), and the range `[addr, addr + size)` is disjoint from
every other currently-live byte allocation.  Without `size ≥ 1` the
address can equal `page_pos`, and without the liveness cap the wrapped
counter can reset the arena under live allocations (see the
counterexample). -/
theorem c4_byte_allocation_amended (PS start size : Nat)
    (s : EarlyAllocator) (L : List (Nat × Nat))
    (h : BTrace PS start size s L) (sz k addr : Nat) (s' : EarlyAllocator)
    (hsz : 1 ≤ sz) (hok : alloc s sz (2 ^ k) = .ok addr s') :
    align_up s.byte_pos (2 ^ k) = some addr ∧
    addr % 2 ^ k = 0 ∧
    s.start ≤ addr ∧ addr < s.page_pos ∧ addr + sz ≤ s.page_pos ∧
    (∀ r ∈ L, r.1 + r.2 ≤ addr ∨ addr + sz ≤ r.1) := by
  obtain ⟨hi, _, _, hr⟩ := btrace_inv h
  have hge := alloc_ok_addr_ge hok
  obtain ⟨hA, hW, hle, hnz, rfl⟩ := alloc_ok_elim hok
  obtain ⟨hWa, hval⟩ := align_up_some_pow2 hA
  refine ⟨hA, ?_, le_trans hi.1 hge, by omega, hle, ?_⟩
  · rw [hval]
    exact Nat.mul_mod_right _ _
  · intro r hrr
    obtain ⟨p1, p2⟩ := hr r hrr
    left
    omega

/-- Witness for C4 (amended): the very first allocation
`alloc(16, 8 = 2 ^ 3)` after `init(0x1000, 0x2000)`. -/
theorem c4_byte_allocation_amended_witness :
    align_up sA.byte_pos (2 ^ 3) = some 0x1000 ∧
    0x1000 % 2 ^ 3 = 0 ∧
    sA.start ≤ 0x1000 ∧ 0x1000 < sA.page_pos ∧
    0x1000 + 16 ≤ sA.page_pos ∧
    (∀ r ∈ ([] : List (Nat × Nat)),
      r.1 + r.2 ≤ 0x1000 ∨ 0x1000 + 16 ≤ r.1) :=
  c4_byte_allocation_amended 0x1000 0x1000 0x2000 sA []
    (BTrace.base sA (by decide)) 16 3 0x1000 sB (by decide) (by decide)

/-- State `sD` after a successful `alloc(0x1000, 1)` filling the byte arena. -/
def sF : EarlyAllocator := ⟨0x1000, 0x2000, 0x2000, 0x2000, 1⟩

/-- State `sF` after a further successful zero-byte allocation. -/
def sG : EarlyAllocator := ⟨0x1000, 0x2000, 0x2000, 0x2000, 2⟩

/-- Claim C4 counterexample: on the freshly bound region `[0x1000, 0x2000)`,
`alloc(0x1000, 1)` fills the byte arena (`byte_pos = page_pos = 0x2000`),
and then the zero-size request `alloc(0, 1)` **succeeds** and returns
`0x2000 = page_pos`, which does not lie within `[start, page_pos)` as
the claim demands of every successful allocation. -/
theorem c4_byte_allocation_counterexample :
    init new 0x1000 0x1000 = some sD ∧
    alloc sD 0x1000 (2 ^ 0) = .ok 0x1000 sF ∧
    alloc sF 0 (2 ^ 0) = .ok 0x2000 sG ∧
    ¬ (0x2000 < sF.page_pos) := by
  decide

end EarlyAlloc
